import Mathlib

/-!
# Verification of `ingest_data.py` (Bt-PplusK/DE_Zoomcamp_W1)

Shallow embedding of the CSV-to-Postgres ingestion script and proofs of the
specification claims about it.

The script (`src/ingest_data.py`) does, in order:
  * `download_file url csv_name` — streams the HTTP body to a local file,
    raising on failure (`raise_for_status` fires before the file is opened;
    a network failure during streaming leaves a partially written file);
  * on a download exception `main` logs and returns (line 45);
  * `create_engine` wrapped in try/except — on failure `main` logs and
    returns (line 52);
  * a try/except/finally block that reads the CSV in chunks of 100000 rows,
    converts the two `tpep_*_datetime` columns with `pd.to_datetime`,
    creates the table from `df.head(0)` with `if_exists='replace'`,
    appends the first chunk, then loops appending further chunks until
    `next` raises `StopIteration` (caught, normal break).  Any other
    exception is caught at line 89 and logged; the `finally` removes the
    local file if it exists.

The embedding models the external world (HTTP outcome, database
availability, `pd.to_datetime` behaviour, per-call `to_sql` outcome) as an
`Env` of injected outcomes, and `main` as a total function from `Env` and
the initial table/file state to a `RunResult`.
-/

namespace IngestData

/-- A cell value: raw CSV text, or the structured date-time value that
`pd.to_datetime` produces (abstracted as a `Nat` timestamp). -/
inductive Value where
  | text : String → Value
  | dt : Nat → Value
deriving DecidableEq

/-- One CSV record: the list of cell values, positionally aligned with the
header. -/
abbrev Row := List Value

/-- A pandas data frame as produced by `read_csv`: the header names and the
data rows. -/
structure Frame where
  header : List String
  rows : List Row
deriving DecidableEq

/-- The target relational table: its column names and its rows. -/
structure Table where
  cols : List String
  rows : List Row
deriving DecidableEq

/-- The chunk size hard-coded in `pd.read_csv(..., chunksize=100000)`. -/
def chunkSize : Nat := 100000

/-- Fuel-driven worker for `chunkRows`; the fuel only bounds the recursion
depth (each step consumes at least one row, so `rows.length` suffices). -/
def chunkRowsAux : Nat → List Row → List (List Row)
  | 0, _ => []
  | _, [] => []
  | fuel + 1, rows => rows.take chunkSize :: chunkRowsAux fuel (rows.drop chunkSize)

/-- The sequence of row batches the chunked `read_csv` iterator yields. -/
def chunkRows (rows : List Row) : List (List Row) :=
  chunkRowsAux rows.length rows

/-- Fuel-driven worker for `chunkLens`. -/
def chunkLensAux : Nat → Nat → List Nat
  | 0, _ => []
  | _, 0 => []
  | fuel + 1, n + 1 => min chunkSize (n + 1) :: chunkLensAux fuel (n + 1 - chunkSize)

/-- The batch sizes of a chunked read of `n` rows. -/
def chunkLens (n : Nat) : List Nat :=
  chunkLensAux n n

/-- The first timestamp column converted at lines 60 and 77. -/
def pickupCol : String := "tpep_pickup_datetime"

/-- The second timestamp column converted at lines 61 and 78. -/
def dropoffCol : String := "tpep_dropoff_datetime"

/-- Position of a column name in the header (first occurrence), `none` when
the data frame has no such column (`df.tpep_pickup_datetime` would raise). -/
def colIdx (c : String) : List String → Option Nat
  | [] => none
  | x :: xs => if x = c then some 0 else (colIdx c xs).map (· + 1)

/-- `pd.to_datetime` on one cell, with parser behaviour `p` supplied by the
environment: text either parses to a date-time or raises; an
already-converted value is returned unchanged. -/
def toDatetimeVal (p : String → Option Nat) : Value → Option Value
  | .text s => (p s).map .dt
  | .dt n => some (.dt n)

/-- `pd.to_datetime` applied to the cell at column position `i` of one row;
fails when the row has no such cell or the text does not parse. -/
def toDatetimeRow (p : String → Option Nat) (i : Nat) (r : Row) : Option Row :=
  match r[i]? with
  | none => none
  | some v => (toDatetimeVal p v).map fun w => r.set i w

/-- All-or-nothing traversal: the whole column conversion raises as soon as
one cell fails. -/
def mapOpt (f : α → Option β) : List α → Option (List β)
  | [] => some []
  | a :: l => (f a).bind fun b => (mapOpt f l).map fun l2 => b :: l2

/-- `df.c = pd.to_datetime(df.c)`: convert column `c` of every row of the
chunk, failing if the column is absent or any cell fails. -/
def toDatetimeCol (p : String → Option Nat) (c : String) (h : List String)
    (rows : List Row) : Option (List Row) :=
  match colIdx c h with
  | none => none
  | some i => mapOpt (toDatetimeRow p i) rows

/-- Lines 60–61 (and 77–78): convert the pickup column, then the dropoff
column, of one chunk. -/
def convertChunk (p : String → Option Nat) (h : List String)
    (rows : List Row) : Option (List Row) :=
  (toDatetimeCol p pickupCol h rows).bind (toDatetimeCol p dropoffCol h)

/-- Outcome of `download_file`: success; failure at `raise_for_status`
(before the output file is opened); or failure while streaming chunks
(after the file was created, leaving partial content on disk). -/
inductive DownloadOutcome where
  | ok
  | failBeforeWrite
  | failMidWrite
deriving DecidableEq

/-- The injected outcomes of every external interaction of one run. -/
structure Env where
  /-- How the HTTP download goes. -/
  download : DownloadOutcome
  /-- The parsed content of the CSV the download produces. -/
  csv : Frame
  /-- What is left on disk when the download dies mid-stream. -/
  midContent : Frame
  /-- Whether `create_engine` succeeds. -/
  connectOk : Bool
  /-- `pd.to_datetime` on a text cell. -/
  p : String → Option Nat
  /-- Outcome of the k-th `to_sql` call of the run (0 = the
  `head(0)`/replace call, 1 = the first append, ...). -/
  writeOk : Nat → Bool

/-- Lines 14–26: returns the new file state and whether the call succeeded
(it re-raises on any failure). -/
def download_file (env : Env) (file0 : Option Frame) : Option Frame × Bool :=
  match env.download with
  | .ok => (some env.csv, true)
  | .failBeforeWrite => (file0, false)
  | .failMidWrite => (some env.midContent, false)

/-- Lines 72–87: the `while True` loop over the remaining chunks.  State:
remaining chunks, current table, sizes appended so far, index of the next
`to_sql` call.  Returns the table, the append sizes, and whether the loop
ended by `StopIteration` (`true`) or by a propagated exception (`false`). -/
def processLoop (env : Env) (h : List String) :
    List (List Row) → Table → List Nat → Nat → Table × List Nat × Bool
  | [], tbl, app, _ => (tbl, app, true)
  | c :: cs, tbl, app, k =>
    match convertChunk env.p h c with
    | none => (tbl, app, false)
    | some c2 =>
      if env.writeOk k then
        processLoop env h cs { tbl with rows := tbl.rows ++ c2 }
          (app ++ [c2.length]) (k + 1)
      else (tbl, app, false)

/-- Lines 55–87, the body of the outer `try`: chunk the CSV, convert and
load the first chunk (creating the table from `df.head(0)` with
`if_exists='replace'`), then run the loop.  Returns the table state, the
append sizes, and `true` iff the body finished without an exception.
An exhausted iterator on the very first `next` raises `StopIteration`,
which the outer generic handler catches: the `[]` case is a failure. -/
def processCSV (env : Env) (csv : Frame) (table0 : Option Table) :
    Option Table × List Nat × Bool :=
  match chunkRows csv.rows with
  | [] => (table0, [], false)
  | c0 :: rest =>
    match convertChunk env.p csv.header c0 with
    | none => (table0, [], false)
    | some c1 =>
      if env.writeOk 0 then
        if env.writeOk 1 then
          let r := processLoop env csv.header rest
            { cols := csv.header, rows := c1 } [c1.length] 2
          (some r.1, r.2.1, r.2.2)
        else (some { cols := csv.header, rows := [] }, [], false)
      else (table0, [], false)

/-- The observable outcome of one `main(params)` call. -/
structure RunResult where
  /-- The target table at the end (`none` = no table of that name). -/
  table : Option Table
  /-- The staging file at the end (`none` = absent). -/
  file : Option Frame
  /-- The row counts of the successful batch-append `to_sql` calls,
  in order (the `head(0)` create call is not an append). -/
  appended : List Nat
  /-- The messages passed to `logging.error`, in order. -/
  errors : List String
  /-- Whether line 86 logged the normal-completion message
  "Finished ingesting data into the PostgreSQL database". -/
  finishedLogged : Bool
deriving DecidableEq

/-- Lines 28–95: the whole of `main`, as a function of the injected
environment and the initial table/file state.  Every exception raised
inside is caught by one of the three handlers, so `main` always returns. -/
def main (env : Env) (table0 : Option Table) (file0 : Option Frame) :
    RunResult :=
  let dl := download_file env file0
  if dl.2 = false then
    { table := table0, file := dl.1, appended := [],
      errors := ["Failed to download file", "Exiting due to download error."],
      finishedLogged := false }
  else if env.connectOk = false then
    { table := table0, file := dl.1, appended := [],
      errors := ["Failed to connect to database"],
      finishedLogged := false }
  else
    let pr := processCSV env env.csv table0
    { table := pr.1, file := none, appended := pr.2.1,
      errors := if pr.2.2 then [] else ["Error processing data"],
      finishedLogged := pr.2.2 }

/-- Lines 97–110: the interpreter runs `main(args)` and, since `main`
returns normally on every path, the process exits with status 0. -/
def script (env : Env) (table0 : Option Table) (file0 : Option Frame) :
    Nat × RunResult :=
  (0, main env table0 file0)


/-! ### Chunking lemmas -/

theorem chunkSize_pos : 0 < chunkSize := by decide

theorem chunkLensAux_sum :
    ∀ fuel n, n ≤ fuel → (chunkLensAux fuel n).sum = n := by
  intro fuel
  induction fuel with
  | zero =>
    intro n h
    have hn : n = 0 := Nat.le_zero.mp h
    subst hn
    simp [chunkLensAux]
  | succ fuel ih =>
    intro n h
    cases n with
    | zero => simp [chunkLensAux]
    | succ m =>
      have h2 : m + 1 - chunkSize ≤ fuel := by
        have := chunkSize_pos
        omega
      have ihm := ih (m + 1 - chunkSize) h2
      simp only [chunkLensAux, List.sum_cons, ihm]
      have := chunkSize_pos
      omega

theorem chunkLensAux_length :
    ∀ fuel n, n ≤ fuel →
      (chunkLensAux fuel n).length = (n + (chunkSize - 1)) / chunkSize := by
  intro fuel
  induction fuel with
  | zero =>
    intro n h
    have hn : n = 0 := Nat.le_zero.mp h
    subst hn
    simp [chunkLensAux, chunkSize]
  | succ fuel ih =>
    intro n h
    cases n with
    | zero => simp [chunkLensAux, chunkSize]
    | succ m =>
      have h2 : m + 1 - chunkSize ≤ fuel := by
        have := chunkSize_pos
        omega
      have ihm := ih (m + 1 - chunkSize) h2
      simp only [chunkLensAux, List.length_cons, ihm]
      simp only [chunkSize]
      omega

theorem chunkLens_sum (n : Nat) : (chunkLens n).sum = n :=
  chunkLensAux_sum n n le_rfl

theorem chunkLens_length (n : Nat) :
    (chunkLens n).length = (n + (chunkSize - 1)) / chunkSize :=
  chunkLensAux_length n n le_rfl

theorem chunkRowsAux_map_length :
    ∀ fuel (rows : List Row),
      (chunkRowsAux fuel rows).map List.length = chunkLensAux fuel rows.length := by
  intro fuel
  induction fuel with
  | zero => intro rows; simp [chunkRowsAux, chunkLensAux]
  | succ fuel ih =>
    intro rows
    cases rows with
    | nil => simp [chunkRowsAux, chunkLensAux]
    | cons a l =>
      simp only [chunkRowsAux, List.map_cons, ih, List.length_cons,
        chunkLensAux, List.length_take, List.length_drop]

theorem chunkRowsAux_join :
    ∀ fuel (rows : List Row), rows.length ≤ fuel →
      (chunkRowsAux fuel rows).flatten = rows := by
  intro fuel
  induction fuel with
  | zero =>
    intro rows h
    have : rows = [] := List.eq_nil_of_length_eq_zero (Nat.le_zero.mp h)
    subst this
    simp [chunkRowsAux]
  | succ fuel ih =>
    intro rows h
    cases rows with
    | nil => simp [chunkRowsAux]
    | cons a l =>
      have h2 : ((a :: l).drop chunkSize).length ≤ fuel := by
        simp only [List.length_drop, List.length_cons]
        have := chunkSize_pos
        simp only [List.length_cons] at h
        omega
      simp only [chunkRowsAux, List.flatten_cons, ih _ h2, List.take_append_drop]

theorem chunkRowsAux_mem :
    ∀ fuel (rows : List Row) c, c ∈ chunkRowsAux fuel rows →
      ∀ r ∈ c, r ∈ rows := by
  intro fuel
  induction fuel with
  | zero => intro rows c hc; simp [chunkRowsAux] at hc
  | succ fuel ih =>
    intro rows c hc r hr
    cases rows with
    | nil => simp [chunkRowsAux] at hc
    | cons a l =>
      simp only [chunkRowsAux, List.mem_cons] at hc
      rcases hc with hc | hc
      · exact List.take_subset _ _ (hc ▸ hr)
      · exact List.drop_subset _ _ (ih _ c hc r hr)

theorem chunkRows_flatten (rows : List Row) : (chunkRows rows).flatten = rows :=
  chunkRowsAux_join rows.length rows le_rfl

theorem chunkRows_map_length (rows : List Row) :
    (chunkRows rows).map List.length = chunkLens rows.length :=
  chunkRowsAux_map_length rows.length rows

theorem chunkRows_mem {rows : List Row} {c : List Row} (hc : c ∈ chunkRows rows)
    {r : Row} (hr : r ∈ c) : r ∈ rows :=
  chunkRowsAux_mem rows.length rows c hc r hr

theorem chunkRows_eq_nil_iff (rows : List Row) :
    chunkRows rows = [] ↔ rows = [] := by
  cases rows with
  | nil => simp [chunkRows, chunkRowsAux]
  | cons a l => simp [chunkRows, chunkRowsAux]


/-! ### Traversal lemmas -/

theorem mapOpt_spec {α β : Type _} {f : α → Option β} :
    ∀ {l : List α} {l2 : List β}, mapOpt f l = some l2 →
      l2.length = l.length ∧ ∀ k : Nat, l2[k]? = (l[k]?).bind f := by
  intro l
  induction l with
  | nil =>
    intro l2 hl
    simp only [mapOpt, Option.some.injEq] at hl
    subst hl
    exact ⟨rfl, fun k => by simp⟩
  | cons a l ih =>
    intro l2 hl
    simp only [mapOpt, Option.bind_eq_some, Option.map_eq_some'] at hl
    obtain ⟨b, hb, l3, hl3, rfl⟩ := hl
    obtain ⟨hlen, hget⟩ := ih hl3
    refine ⟨by simp [hlen], fun k => ?_⟩
    cases k with
    | zero => simp [hb]
    | succ m => simpa using hget m

theorem mapOpt_length {α β : Type _} {f : α → Option β} {l : List α}
    {l2 : List β} (hl : mapOpt f l = some l2) : l2.length = l.length :=
  (mapOpt_spec hl).1

theorem mapOpt_getElem? {α β : Type _} {f : α → Option β} {l : List α}
    {l2 : List β} (hl : mapOpt f l = some l2) (k : Nat) :
    l2[k]? = (l[k]?).bind f :=
  (mapOpt_spec hl).2 k

theorem mapOpt_isSome {α β : Type _} {f : α → Option β} :
    ∀ {l : List α}, (∀ a ∈ l, (f a).isSome) → (mapOpt f l).isSome := by
  intro l
  induction l with
  | nil => intro _; simp [mapOpt]
  | cons a l ih =>
    intro hall
    have ha := hall a (List.mem_cons_self a l)
    obtain ⟨b, hb⟩ := Option.isSome_iff_exists.mp ha
    have hl := ih fun x hx => hall x (List.mem_cons_of_mem a hx)
    obtain ⟨l3, hl3⟩ := Option.isSome_iff_exists.mp hl
    simp [mapOpt, hb, hl3]

theorem mapOpt_mem {α β : Type _} {f : α → Option β} :
    ∀ {l : List α} {l2 : List β}, mapOpt f l = some l2 →
      ∀ b ∈ l2, ∃ a ∈ l, f a = some b := by
  intro l
  induction l with
  | nil =>
    intro l2 hl
    simp only [mapOpt, Option.some.injEq] at hl
    subst hl
    simp
  | cons a l ih =>
    intro l2 hl b hbmem
    simp only [mapOpt, Option.bind_eq_some, Option.map_eq_some'] at hl
    obtain ⟨b2, hb2, l3, hl3, rfl⟩ := hl
    rcases List.mem_cons.mp hbmem with rfl | hbl
    · exact ⟨a, List.mem_cons_self a l, hb2⟩
    · obtain ⟨a2, ha2, hfa2⟩ := ih hl3 b hbl
      exact ⟨a2, List.mem_cons_of_mem a ha2, hfa2⟩

/-! ### Column-lookup lemmas -/

theorem colIdx_isSome {c : String} :
    ∀ {h : List String}, c ∈ h → (colIdx c h).isSome := by
  intro h
  induction h with
  | nil => intro hc; simp at hc
  | cons x xs ih =>
    intro hc
    by_cases hx : x = c
    · simp [colIdx, hx]
    · rcases List.mem_cons.mp hc with rfl | hmem
      · exact absurd rfl hx
      · have := ih hmem
        obtain ⟨i, hi⟩ := Option.isSome_iff_exists.mp this
        simp [colIdx, hx, hi]

theorem colIdx_getElem? {c : String} :
    ∀ {h : List String} {i : Nat}, colIdx c h = some i → h[i]? = some c := by
  intro h
  induction h with
  | nil => intro i hi; simp [colIdx] at hi
  | cons x xs ih =>
    intro i hi
    by_cases hx : x = c
    · simp only [colIdx, if_pos hx, Option.some.injEq] at hi
      subst hi
      simp [hx]
    · simp only [colIdx, if_neg hx, Option.map_eq_some'] at hi
      obtain ⟨j, hj, rfl⟩ := hi
      simpa using ih hj

theorem colIdx_lt {c : String} {h : List String} {i : Nat}
    (hi : colIdx c h = some i) : i < h.length := by
  have := colIdx_getElem? hi
  have h2 := List.getElem?_eq_some_iff.mp this
  exact h2.1

theorem colIdx_ne {c c2 : String} {h : List String} {i j : Nat}
    (hi : colIdx c h = some i) (hj : colIdx c2 h = some j)
    (hcc : c ≠ c2) : i ≠ j := by
  intro hij
  subst hij
  have h1 := colIdx_getElem? hi
  have h2 := colIdx_getElem? hj
  rw [h1] at h2
  exact hcc (Option.some.injEq _ _ ▸ h2)

/-! ### Datetime-conversion lemmas -/

theorem toDatetimeVal_isSome {p : String → Option Nat}
    (hp : ∀ s, (p s).isSome) (v : Value) : (toDatetimeVal p v).isSome := by
  cases v with
  | text s =>
    obtain ⟨n, hn⟩ := Option.isSome_iff_exists.mp (hp s)
    simp [toDatetimeVal, hn]
  | dt n => simp [toDatetimeVal]

theorem toDatetimeVal_dt {p : String → Option Nat} {v w : Value}
    (hw : toDatetimeVal p v = some w) : ∃ n, w = .dt n := by
  cases v with
  | text s =>
    simp only [toDatetimeVal, Option.map_eq_some'] at hw
    obtain ⟨n, _, rfl⟩ := hw
    exact ⟨n, rfl⟩
  | dt n =>
    simp only [toDatetimeVal, Option.some.injEq] at hw
    exact ⟨n, hw.symm⟩

theorem toDatetimeRow_eq_some {p : String → Option Nat} {i : Nat} {r r2 : Row}
    (hr : toDatetimeRow p i r = some r2) :
    ∃ v w, r[i]? = some v ∧ toDatetimeVal p v = some w ∧ r2 = r.set i w := by
  unfold toDatetimeRow at hr
  cases hv : r[i]? with
  | none => rw [hv] at hr; simp at hr
  | some v =>
    rw [hv] at hr
    simp only [Option.map_eq_some'] at hr
    obtain ⟨w, hw, rfl⟩ := hr
    exact ⟨v, w, rfl, hw, rfl⟩

theorem toDatetimeRow_isSome {p : String → Option Nat} {i : Nat} {r : Row}
    (hi : i < r.length) (hp : ∀ s, (p s).isSome) :
    (toDatetimeRow p i r).isSome := by
  have hv : r[i]? = some r[i] := List.getElem?_eq_getElem hi
  obtain ⟨w, hw⟩ := Option.isSome_iff_exists.mp (toDatetimeVal_isSome hp r[i])
  simp [toDatetimeRow, hv, hw]

theorem toDatetimeRow_length {p : String → Option Nat} {i : Nat} {r r2 : Row}
    (hr : toDatetimeRow p i r = some r2) : r2.length = r.length := by
  obtain ⟨v, w, _, _, rfl⟩ := toDatetimeRow_eq_some hr
  simp

theorem toDatetimeRow_getElem_ne {p : String → Option Nat} {i : Nat} {r r2 : Row}
    (hr : toDatetimeRow p i r = some r2) {m : Nat} (hm : i ≠ m) :
    r2[m]? = r[m]? := by
  obtain ⟨v, w, _, _, rfl⟩ := toDatetimeRow_eq_some hr
  exact List.getElem?_set_ne hm

theorem toDatetimeRow_getElem_self {p : String → Option Nat} {i : Nat}
    {r r2 : Row} (hr : toDatetimeRow p i r = some r2) :
    r2[i]? = (r[i]?).bind (toDatetimeVal p) := by
  obtain ⟨v, w, hv, hw, rfl⟩ := toDatetimeRow_eq_some hr
  have hlt : i < r.length := (List.getElem?_eq_some_iff.mp hv).1
  rw [List.getElem?_set_self hlt, hv]
  simp [hw]

theorem toDatetimeCol_eq_some {p : String → Option Nat} {c : String}
    {h : List String} {rows rows2 : List Row}
    (hc : toDatetimeCol p c h rows = some rows2) :
    ∃ i, colIdx c h = some i ∧ mapOpt (toDatetimeRow p i) rows = some rows2 := by
  unfold toDatetimeCol at hc
  cases hidx : colIdx c h with
  | none => rw [hidx] at hc; simp at hc
  | some i => rw [hidx] at hc; exact ⟨i, rfl, hc⟩

theorem toDatetimeCol_isSome {p : String → Option Nat} {c : String}
    {h : List String} {rows : List Row} (hc : c ∈ h)
    (hp : ∀ s, (p s).isSome) (hr : ∀ r ∈ rows, h.length ≤ r.length) :
    (toDatetimeCol p c h rows).isSome := by
  obtain ⟨i, hi⟩ := Option.isSome_iff_exists.mp (colIdx_isSome hc)
  have hlt := colIdx_lt hi
  unfold toDatetimeCol
  rw [hi]
  exact mapOpt_isSome fun r hrr =>
    toDatetimeRow_isSome (Nat.lt_of_lt_of_le hlt (hr r hrr)) hp

theorem toDatetimeCol_length {p : String → Option Nat} {c : String}
    {h : List String} {rows rows2 : List Row}
    (hc : toDatetimeCol p c h rows = some rows2) : rows2.length = rows.length := by
  obtain ⟨i, _, hm⟩ := toDatetimeCol_eq_some hc
  exact mapOpt_length hm

theorem toDatetimeCol_mem_length {p : String → Option Nat} {c : String}
    {h : List String} {rows rows2 : List Row}
    (hc : toDatetimeCol p c h rows = some rows2) :
    ∀ r2 ∈ rows2, ∃ r ∈ rows, r2.length = r.length := by
  obtain ⟨i, _, hm⟩ := toDatetimeCol_eq_some hc
  intro r2 hr2
  obtain ⟨r, hrmem, hconv⟩ := mapOpt_mem hm r2 hr2
  exact ⟨r, hrmem, toDatetimeRow_length hconv⟩

theorem convertChunk_eq_some {p : String → Option Nat} {h : List String}
    {rows rows2 : List Row} (hc : convertChunk p h rows = some rows2) :
    ∃ mid, toDatetimeCol p pickupCol h rows = some mid ∧
      toDatetimeCol p dropoffCol h mid = some rows2 := by
  unfold convertChunk at hc
  cases hmid : toDatetimeCol p pickupCol h rows with
  | none => rw [hmid] at hc; simp at hc
  | some mid => rw [hmid] at hc; exact ⟨mid, rfl, hc⟩

theorem convertChunk_isSome {p : String → Option Nat} {h : List String}
    {rows : List Row} (h1 : pickupCol ∈ h) (h2 : dropoffCol ∈ h)
    (hp : ∀ s, (p s).isSome) (hr : ∀ r ∈ rows, h.length ≤ r.length) :
    (convertChunk p h rows).isSome := by
  obtain ⟨mid, hmid⟩ :=
    Option.isSome_iff_exists.mp (toDatetimeCol_isSome h1 hp hr)
  have hr2 : ∀ r2 ∈ mid, h.length ≤ r2.length := by
    intro r2 hr2
    obtain ⟨r, hrmem, hlen⟩ := toDatetimeCol_mem_length hmid r2 hr2
    exact hlen ▸ hr r hrmem
  obtain ⟨out, hout⟩ :=
    Option.isSome_iff_exists.mp (toDatetimeCol_isSome h2 hp hr2)
  simp [convertChunk, hmid, hout]

theorem convertChunk_length {p : String → Option Nat} {h : List String}
    {rows rows2 : List Row} (hc : convertChunk p h rows = some rows2) :
    rows2.length = rows.length := by
  obtain ⟨mid, hmid, hout⟩ := convertChunk_eq_some hc
  rw [toDatetimeCol_length hout, toDatetimeCol_length hmid]


/-! ### Loop lemmas -/

/-- What one pass of the lines 72–87 loop does, in full generality: some
prefix `cs1` of the pending chunks is converted and appended, and the loop
reports normal termination exactly when nothing was left unprocessed. -/
theorem processLoop_spec (env : Env) (h : List String) :
    ∀ (cs : List (List Row)) (tbl : Table) (app : List Nat) (k : Nat),
      ∃ cs1 cs2 ds,
        cs = cs1 ++ cs2 ∧
        List.Forall₂ (fun c d => convertChunk env.p h c = some d) cs1 ds ∧
        processLoop env h cs tbl app k =
          ({ cols := tbl.cols, rows := tbl.rows ++ ds.flatten },
            app ++ ds.map List.length, cs2.isEmpty) := by
  intro cs
  induction cs with
  | nil =>
    intro tbl app k
    exact ⟨[], [], [], rfl, List.Forall₂.nil, by simp [processLoop]⟩
  | cons c cs ih =>
    intro tbl app k
    cases hconv : convertChunk env.p h c with
    | none =>
      refine ⟨[], c :: cs, [], rfl, List.Forall₂.nil, ?_⟩
      simp [processLoop, hconv]
    | some c2 =>
      by_cases hw : env.writeOk k
      · obtain ⟨cs1, cs2, ds, hsplit, hall, hrun⟩ :=
          ih { tbl with rows := tbl.rows ++ c2 } (app ++ [c2.length]) (k + 1)
        refine ⟨c :: cs1, cs2, c2 :: ds, by simp [hsplit],
          List.Forall₂.cons hconv hall, ?_⟩
        simp only [processLoop, hconv, if_pos hw, hrun]
        simp [List.append_assoc]
      · refine ⟨[], c :: cs, [], rfl, List.Forall₂.nil, ?_⟩
        simp [processLoop, hconv, hw]

/-- When every write succeeds and every pending chunk converts, the loop
consumes the whole iterator and ends by the `StopIteration` break. -/
theorem processLoop_ok (env : Env) (h : List String)
    (hw : ∀ k, env.writeOk k = true) :
    ∀ (cs : List (List Row)) (tbl : Table) (app : List Nat) (k : Nat),
      (∀ c ∈ cs, (convertChunk env.p h c).isSome) →
      ∃ ds,
        List.Forall₂ (fun c d => convertChunk env.p h c = some d) cs ds ∧
        processLoop env h cs tbl app k =
          ({ cols := tbl.cols, rows := tbl.rows ++ ds.flatten },
            app ++ ds.map List.length, true) := by
  intro cs
  induction cs with
  | nil =>
    intro tbl app k _
    exact ⟨[], List.Forall₂.nil, by simp [processLoop]⟩
  | cons c cs ih =>
    intro tbl app k hall
    obtain ⟨c2, hconv⟩ := Option.isSome_iff_exists.mp
      (hall c (List.mem_cons_self c cs))
    obtain ⟨ds, hds, hrun⟩ :=
      ih { tbl with rows := tbl.rows ++ c2 } (app ++ [c2.length]) (k + 1)
        fun x hx => hall x (List.mem_cons_of_mem c hx)
    refine ⟨c2 :: ds, List.Forall₂.cons hconv hds, ?_⟩
    simp only [processLoop, hconv, hw k, if_pos, hrun]
    simp [List.append_assoc]

/-- Conversion preserves the size of every chunk, so the appended sizes are
the sizes of the source chunks. -/
theorem forall2_conv_map_length {p : String → Option Nat} {h : List String}
    {cs ds : List (List Row)}
    (hall : List.Forall₂ (fun c d => convertChunk p h c = some d) cs ds) :
    ds.map List.length = cs.map List.length := by
  induction hall with
  | nil => rfl
  | cons h1 _ ih => simp [convertChunk_length h1, ih]

/-- A row produced by a successful `toDatetimeRow` carries a structured
date-time at the converted position. -/
theorem toDatetimeRow_dt_self {p : String → Option Nat} {i : Nat} {r r2 : Row}
    (hr : toDatetimeRow p i r = some r2) : ∃ n, r2[i]? = some (.dt n) := by
  obtain ⟨v, w, hv, hw, rfl⟩ := toDatetimeRow_eq_some hr
  obtain ⟨n, rfl⟩ := toDatetimeVal_dt hw
  have hlt : i < r.length := (List.getElem?_eq_some_iff.mp hv).1
  exact ⟨n, List.getElem?_set_self hlt⟩

theorem pickup_ne_dropoff : pickupCol ≠ dropoffCol := by decide

/-- Every row of a successfully converted chunk carries structured
date-times at both timestamp positions. -/
theorem convertChunk_dt {p : String → Option Nat} {h : List String}
    {rows rows2 : List Row} (hc : convertChunk p h rows = some rows2)
    {i j : Nat} (hi : colIdx pickupCol h = some i)
    (hj : colIdx dropoffCol h = some j) :
    ∀ r2 ∈ rows2, (∃ n, r2[i]? = some (.dt n)) ∧ ∃ n, r2[j]? = some (.dt n) := by
  have hij : i ≠ j := colIdx_ne hi hj pickup_ne_dropoff
  obtain ⟨mid, hmid, hout⟩ := convertChunk_eq_some hc
  obtain ⟨i2, hi2, hmap1⟩ := toDatetimeCol_eq_some hmid
  obtain ⟨j2, hj2, hmap2⟩ := toDatetimeCol_eq_some hout
  rw [hi] at hi2
  rw [hj] at hj2
  cases hi2
  cases hj2
  intro r2 hr2
  obtain ⟨m, hmmem, hconv2⟩ := mapOpt_mem hmap2 r2 hr2
  obtain ⟨r, _, hconv1⟩ := mapOpt_mem hmap1 m hmmem
  constructor
  · obtain ⟨n, hn⟩ := toDatetimeRow_dt_self hconv1
    exact ⟨n, by rw [toDatetimeRow_getElem_ne hconv2 (Ne.symm hij), hn]⟩
  · exact toDatetimeRow_dt_self hconv2


/-! ### Unfolding and path lemmas -/

theorem chunkRowsAux_congr :
    ∀ fuel fuel2 (rows : List Row), rows.length ≤ fuel → rows.length ≤ fuel2 →
      chunkRowsAux fuel rows = chunkRowsAux fuel2 rows := by
  intro fuel
  induction fuel with
  | zero =>
    intro fuel2 rows h1 _
    have : rows = [] := List.eq_nil_of_length_eq_zero (Nat.le_zero.mp h1)
    subst this
    cases fuel2 <;> simp [chunkRowsAux]
  | succ fuel ih =>
    intro fuel2 rows h1 h2
    cases rows with
    | nil => cases fuel2 <;> simp [chunkRowsAux]
    | cons a l =>
      cases fuel2 with
      | zero => simp at h2
      | succ fuel2 =>
        simp only [chunkRowsAux]
        congr 1
        apply ih
        · simp only [List.length_drop, List.length_cons]
          have := chunkSize_pos
          simp only [List.length_cons] at h1
          omega
        · simp only [List.length_drop, List.length_cons]
          have := chunkSize_pos
          simp only [List.length_cons] at h2
          omega

/-- The one-step unfolding of the chunk iterator on a nonempty row list. -/
theorem chunkRows_cons {rows : List Row} (hne : rows ≠ []) :
    chunkRows rows = rows.take chunkSize :: chunkRows (rows.drop chunkSize) := by
  cases rows with
  | nil => exact absurd rfl hne
  | cons a l =>
    show chunkRowsAux (l.length + 1) (a :: l) = _
    simp only [chunkRowsAux]
    congr 1
    apply chunkRowsAux_congr
    · simp only [List.length_drop, List.length_cons]
      have := chunkSize_pos
      omega
    · exact le_rfl

theorem chunkLens_ne_nil {n : Nat} (hn : n ≠ 0) : chunkLens n ≠ [] := by
  cases n with
  | zero => exact absurd rfl hn
  | succ m => simp [chunkLens, chunkLensAux]

theorem forall2_mem_right {α β : Type _} {R : α → β → Prop} :
    ∀ {l1 : List α} {l2 : List β}, List.Forall₂ R l1 l2 →
      ∀ b ∈ l2, ∃ a ∈ l1, R a b := by
  intro l1 l2 hall
  induction hall with
  | nil => simp
  | cons h1 _ ih =>
    intro b hb
    rcases List.mem_cons.mp hb with rfl | hb2
    · exact ⟨_, List.mem_cons_self _ _, h1⟩
    · obtain ⟨a, ha, hr⟩ := ih b hb2
      exact ⟨a, List.mem_cons_of_mem _ ha, hr⟩

theorem forall2_mem_left {α β : Type _} {R : α → β → Prop} :
    ∀ {l1 : List α} {l2 : List β}, List.Forall₂ R l1 l2 →
      ∀ a ∈ l1, ∃ b ∈ l2, R a b := by
  intro l1 l2 hall
  induction hall with
  | nil => simp
  | cons h1 _ ih =>
    intro a ha
    rcases List.mem_cons.mp ha with rfl | ha2
    · exact ⟨_, List.mem_cons_self _ _, h1⟩
    · obtain ⟨b, hb, hr⟩ := ih a ha2
      exact ⟨b, List.mem_cons_of_mem _ hb, hr⟩

/-- `main` on the download-failure path: the handler at lines 43-45
returns at once; no cleanup runs. -/
theorem main_dlfail (env : Env) (table0 : Option Table) (file0 : Option Frame)
    (hdl : env.download ≠ .ok) :
    main env table0 file0 =
      { table := table0, file := (download_file env file0).1, appended := [],
        errors := ["Failed to download file", "Exiting due to download error."],
        finishedLogged := false } := by
  cases h : env.download with
  | ok => exact absurd h hdl
  | failBeforeWrite => simp [main, download_file, h]
  | failMidWrite => simp [main, download_file, h]

/-- `main` on the connection-failure path: the handler at lines 50-52
returns at once; the downloaded file stays on disk. -/
theorem main_connfail (env : Env) (table0 : Option Table) (file0 : Option Frame)
    (hdl : env.download = .ok) (hc : env.connectOk = false) :
    main env table0 file0 =
      { table := table0, file := some env.csv, appended := [],
        errors := ["Failed to connect to database"],
        finishedLogged := false } := by
  simp [main, download_file, hdl, hc]

/-- `main` once both the download and the connection succeed: the outcome
is that of the processing block, and the `finally` always removes the
file. -/
theorem main_proc (env : Env) (table0 : Option Table) (file0 : Option Frame)
    (hdl : env.download = .ok) (hconn : env.connectOk = true) :
    main env table0 file0 =
      { table := (processCSV env env.csv table0).1,
        file := none,
        appended := (processCSV env env.csv table0).2.1,
        errors := if (processCSV env env.csv table0).2.2 then []
          else ["Error processing data"],
        finishedLogged := (processCSV env env.csv table0).2.2 } := by
  simp [main, download_file, hdl, hconn]

/-- The processing block when the CSV is empty: the first `next` raises
`StopIteration`, caught by the generic handler. -/
theorem processCSV_nil (env : Env) {csv : Frame} (table0 : Option Table)
    (hchunks : chunkRows csv.rows = []) :
    processCSV env csv table0 = (table0, [], false) := by
  unfold processCSV
  rw [hchunks]

/-- The processing block when the first chunk fails to convert. -/
theorem processCSV_convFail (env : Env) {csv : Frame} (table0 : Option Table)
    {c0 : List Row} {rest : List (List Row)}
    (hchunks : chunkRows csv.rows = c0 :: rest)
    (hc1 : convertChunk env.p csv.header c0 = none) :
    processCSV env csv table0 = (table0, [], false) := by
  unfold processCSV
  rw [hchunks]
  simp [hc1]

/-- The processing block when the `head(0)`/replace `to_sql` call fails. -/
theorem processCSV_w0Fail (env : Env) {csv : Frame} (table0 : Option Table)
    {c0 : List Row} {rest : List (List Row)} {c1 : List Row}
    (hchunks : chunkRows csv.rows = c0 :: rest)
    (hc1 : convertChunk env.p csv.header c0 = some c1)
    (hw0 : env.writeOk 0 = false) :
    processCSV env csv table0 = (table0, [], false) := by
  unfold processCSV
  rw [hchunks]
  simp [hc1, hw0]

/-- The processing block when the first append `to_sql` call fails: the
table was already created empty from `df.head(0)`. -/
theorem processCSV_w1Fail (env : Env) {csv : Frame} (table0 : Option Table)
    {c0 : List Row} {rest : List (List Row)} {c1 : List Row}
    (hchunks : chunkRows csv.rows = c0 :: rest)
    (hc1 : convertChunk env.p csv.header c0 = some c1)
    (hw0 : env.writeOk 0 = true) (hw1 : env.writeOk 1 = false) :
    processCSV env csv table0 =
      (some { cols := csv.header, rows := [] }, [], false) := by
  unfold processCSV
  rw [hchunks]
  simp [hc1, hw0, hw1]

/-- The processing block once the first chunk is converted, the table is
created, and the first append succeeds: the rest is the loop. -/
theorem processCSV_go (env : Env) {csv : Frame} (table0 : Option Table)
    {c0 : List Row} {rest : List (List Row)} {c1 : List Row}
    (hchunks : chunkRows csv.rows = c0 :: rest)
    (hc1 : convertChunk env.p csv.header c0 = some c1)
    (hw0 : env.writeOk 0 = true) (hw1 : env.writeOk 1 = true) :
    processCSV env csv table0 =
      (some (processLoop env csv.header rest
          { cols := csv.header, rows := c1 } [c1.length] 2).1,
        (processLoop env csv.header rest
          { cols := csv.header, rows := c1 } [c1.length] 2).2.1,
        (processLoop env csv.header rest
          { cols := csv.header, rows := c1 } [c1.length] 2).2.2) := by
  unfold processCSV
  rw [hchunks]
  simp [hc1, hw0, hw1]

/-- On a fully failure-free run the processing block converts and appends
every chunk and reports normal completion. -/
theorem processCSV_ok (env : Env) (table0 : Option Table)
    (hw : ∀ k, env.writeOk k = true) (hp : ∀ s, (env.p s).isSome)
    (h1 : pickupCol ∈ env.csv.header) (h2 : dropoffCol ∈ env.csv.header)
    (hlen : ∀ r ∈ env.csv.rows, env.csv.header.length ≤ r.length)
    (hne : env.csv.rows ≠ []) :
    ∃ ds,
      List.Forall₂ (fun c d => convertChunk env.p env.csv.header c = some d)
        (chunkRows env.csv.rows) ds ∧
      processCSV env env.csv table0 =
        (some { cols := env.csv.header, rows := ds.flatten },
          ds.map List.length, true) := by
  have hconvAll : ∀ c ∈ chunkRows env.csv.rows,
      (convertChunk env.p env.csv.header c).isSome := by
    intro c hc
    exact convertChunk_isSome h1 h2 hp fun r hr => hlen r (chunkRows_mem hc hr)
  cases hchunks : chunkRows env.csv.rows with
  | nil => exact absurd ((chunkRows_eq_nil_iff _).mp hchunks) hne
  | cons c0 rest =>
    rw [hchunks] at hconvAll
    obtain ⟨c1, hc1⟩ := Option.isSome_iff_exists.mp
      (hconvAll c0 (List.mem_cons_self c0 rest))
    obtain ⟨ds0, hds0, hrun⟩ :=
      processLoop_ok env env.csv.header hw rest
        { cols := env.csv.header, rows := c1 } [c1.length] 2
        fun c hc => hconvAll c (List.mem_cons_of_mem c0 hc)
    refine ⟨c1 :: ds0, List.Forall₂.cons hc1 hds0, ?_⟩
    rw [processCSV_go env table0 hchunks hc1 (hw 0) (hw 1), hrun]
    simp

/-- Conversely, if the processing block reports normal completion then
every chunk of the CSV was successfully converted. -/
theorem processCSV_ok_all_conv (env : Env) (table0 : Option Table)
    (hok : (processCSV env env.csv table0).2.2 = true) :
    ∀ c ∈ chunkRows env.csv.rows,
      (convertChunk env.p env.csv.header c).isSome := by
  intro c hc
  cases hchunks : chunkRows env.csv.rows with
  | nil =>
    rw [hchunks] at hc
    simp at hc
  | cons c0 rest =>
    rw [hchunks] at hc
    cases hc1 : convertChunk env.p env.csv.header c0 with
    | none =>
      rw [processCSV_convFail env table0 hchunks hc1] at hok
      simp at hok
    | some c1 =>
      cases hw0 : env.writeOk 0 with
      | false =>
        rw [processCSV_w0Fail env table0 hchunks hc1 hw0] at hok
        simp at hok
      | true =>
        cases hw1 : env.writeOk 1 with
        | false =>
          rw [processCSV_w1Fail env table0 hchunks hc1 hw0 hw1] at hok
          simp at hok
        | true =>
          rw [processCSV_go env table0 hchunks hc1 hw0 hw1] at hok
          obtain ⟨cs1, cs2, ds, hsplit, hall, hrun⟩ :=
            processLoop_spec env env.csv.header rest
              { cols := env.csv.header, rows := c1 } [c1.length] 2
          rw [hrun] at hok
          simp only at hok
          have hcs2 : cs2 = [] := by
            cases cs2 with
            | nil => rfl
            | cons x xs => simp [List.isEmpty] at hok
          subst hcs2
          rw [List.append_nil] at hsplit
          subst hsplit
          rcases List.mem_cons.mp hc with rfl | hcrest
          · exact Option.isSome_iff_exists.mpr ⟨c1, hc1⟩
          · obtain ⟨d, _, hd⟩ := forall2_mem_left hall c hcrest
            exact Option.isSome_iff_exists.mpr ⟨d, hd⟩


/-! ### Concrete environments for witnesses and counterexamples -/

/-- A two-row, three-column CSV (both timestamp columns plus one data
column) used by the concrete witnesses. -/
def csvS : Frame :=
  { header := [pickupCol, dropoffCol, "fare_amount"],
    rows := [[.text "2021-01-01", .text "2021-01-02", .text "10"],
             [.text "2021-01-03", .text "2021-01-04", .text "20"]] }

/-- An environment in which every external operation succeeds. -/
def envOk : Env :=
  { download := .ok, csv := csvS, midContent := { header := [], rows := [] },
    connectOk := true, p := fun _ => some 5, writeOk := fun _ => true }

/-- Same world, but `create_engine` fails. -/
def envConnFail : Env := { envOk with connectOk := false }

/-- Same world, but the download fails at `raise_for_status`. -/
def envDlFail : Env := { envOk with download := .failBeforeWrite }

/-- Same world, but the CSV has a header and no data rows. -/
def envEmpty : Env :=
  { envOk with csv := { header := [pickupCol, dropoffCol], rows := [] } }

/-- A pre-existing target table with data, for replacement scenarios. -/
def preTbl : Table :=
  { cols := ["old_col"], rows := [[.text "old_value"]] }

/-! ### The claims -/

/-- Claim C2, counterexample.  The claim states that on every execution
path the temporary staging file is deleted before the run ends, provided
it exists.  This is false: when the download succeeds but `create_engine`
fails, `main` returns at line 52 without ever reaching the `finally`
cleanup at lines 91-95, so the downloaded staging file remains on disk. -/
theorem claim2_cex : ¬ ((main envConnFail none none).file = none) := by decide

/-- Claim C2, as amended.  The cleanup at lines 91-95 is guaranteed only
on the paths that reach the CSV-processing `try` block: whenever both the
download and the database connection succeed, the staging file is removed
before the run ends, whether processing succeeds or fails.  (On the
download-failure and connection-failure paths no cleanup runs, so a file
present at that point remains on disk.) -/
theorem claim2 (env : Env) (table0 : Option Table) (file0 : Option Frame)
    (hdl : env.download = .ok) (hconn : env.connectOk = true) :
    (main env table0 file0).file = none := by
  rw [main_proc env table0 file0 hdl hconn]

/-- Witness for C2 (amended): a concrete run that reaches processing
deletes the staging file. -/
theorem claim2_inst :
    (envOk.download = .ok ∧ envOk.connectOk = true) ∧
      (main envOk none none).file = none :=
  ⟨⟨rfl, rfl⟩, claim2 envOk none none rfl rfl⟩

/-- Claim C5: if the download fails, `download_file` re-raises (line 26),
`main` returns at line 45 before `create_engine` or any `to_sql` call, so
the target table is never created, replaced, or written: it is exactly the
initial table, and no batch was appended. -/
theorem claim5 (env : Env) (table0 : Option Table) (file0 : Option Frame)
    (hdl : env.download ≠ .ok) :
    (main env table0 file0).table = table0 ∧
    (main env table0 file0).appended = [] ∧
    (main env table0 file0).errors =
      ["Failed to download file", "Exiting due to download error."] ∧
    (main env table0 file0).finishedLogged = false := by
  rw [main_dlfail env table0 file0 hdl]
  exact ⟨rfl, rfl, rfl, rfl⟩

/-- Witness for C5: a failed download leaves a pre-existing table with
data completely untouched. -/
theorem claim5_inst :
    envDlFail.download ≠ .ok ∧
      (main envDlFail (some preTbl) none).table = some preTbl ∧
      (main envDlFail (some preTbl) none).appended = [] := by
  have h := claim5 envDlFail (some preTbl) none (by decide)
  exact ⟨by decide, h.1, h.2.1⟩

/-- Claim C6: every failure path (download error, connection error,
processing error) is caught inside `main`, an error is logged, and `main`
returns normally, so the script's exit status is 0 — identical to the exit
status of a successful run. -/
theorem claim6 (env : Env) (table0 : Option Table) (file0 : Option Frame) :
    (script env table0 file0).1 = 0 ∧
    (script env table0 file0).2 = main env table0 file0 ∧
    (env.download ≠ .ok → (main env table0 file0).errors ≠ []) ∧
    (env.download = .ok → env.connectOk = false →
      (main env table0 file0).errors ≠ []) ∧
    (env.download = .ok → env.connectOk = true →
      (processCSV env env.csv table0).2.2 = false →
      (main env table0 file0).errors ≠ []) := by
  refine ⟨rfl, rfl, ?_, ?_, ?_⟩
  · intro h
    rw [main_dlfail env table0 file0 h]
    simp
  · intro h1 h2
    rw [main_connfail env table0 file0 h1 h2]
    simp
  · intro h1 h2 h3
    rw [main_proc env table0 file0 h1 h2]
    simp [h3]

/-- Witness for C6: a run whose download fails logs an error yet exits
with status 0, like any successful run. -/
theorem claim6_inst :
    (script envDlFail none none).1 = 0 ∧
      (main envDlFail none none).errors ≠ [] ∧
      (script envOk none none).1 = 0 :=
  ⟨(claim6 envDlFail none none).1,
    (claim6 envDlFail none none).2.2.1 (by decide),
    (claim6 envOk none none).1⟩

/-- Claim C10: when the CSV has no data rows the first `next(df_iter)`
raises `StopIteration`, which the generic `except Exception` at line 89
catches (`StopIteration` is an `Exception`): an error is logged, the
target table is neither created nor replaced, and the staging file is
still deleted by the `finally`. -/
theorem claim10 (env : Env) (table0 : Option Table) (file0 : Option Frame)
    (hdl : env.download = .ok) (hconn : env.connectOk = true)
    (hempty : env.csv.rows = []) :
    (main env table0 file0).table = table0 ∧
    (main env table0 file0).file = none ∧
    (main env table0 file0).appended = [] ∧
    (main env table0 file0).errors = ["Error processing data"] ∧
    (main env table0 file0).finishedLogged = false := by
  rw [main_proc env table0 file0 hdl hconn]
  have hchunks : chunkRows env.csv.rows = [] := by
    rw [hempty]
    rfl
  rw [processCSV_nil env table0 hchunks]
  exact ⟨rfl, rfl, rfl, rfl, rfl⟩

/-- Witness for C10: an empty CSV leaves a pre-existing table intact,
logs the processing error, and the staging file is gone. -/
theorem claim10_inst :
    (envEmpty.download = .ok ∧ envEmpty.connectOk = true ∧
      envEmpty.csv.rows = []) ∧
      (main envEmpty (some preTbl) none).table = some preTbl ∧
      (main envEmpty (some preTbl) none).file = none ∧
      (main envEmpty (some preTbl) none).errors = ["Error processing data"] := by
  have h := claim10 envEmpty (some preTbl) none rfl rfl rfl
  exact ⟨⟨rfl, rfl, rfl⟩, h.1, h.2.1, h.2.2.2.1⟩


/-- A trip record with the two timestamp cells, used to build large CSVs
without large literals. -/
def rowG : Row := [.text "2021-01-01 00:30:00", .text "2021-01-01 00:45:00"]

/-- The spec scenario: a 250,000-row CSV, every operation succeeding. -/
def env250 : Env :=
  { download := .ok,
    csv := { header := [pickupCol, dropoffCol],
             rows := List.replicate 250000 rowG },
    midContent := { header := [], rows := [] },
    connectOk := true,
    p := fun _ => some 0,
    writeOk := fun _ => true }

/-- Claim C1: on a run in which no operation fails, a CSV with `N` data
rows (`N > 0`) ends with the target table holding exactly `N` rows, loaded
by batch-append `to_sql` calls whose sizes are the chunk sizes of a
100,000-row chunking of `N` — in particular `ceil(N / 100000)` append
calls whose sizes sum to `N`. -/
theorem claim1 (env : Env) (table0 : Option Table) (file0 : Option Frame)
    (hdl : env.download = .ok) (hconn : env.connectOk = true)
    (hw : ∀ k, env.writeOk k = true) (hp : ∀ s, (env.p s).isSome)
    (h1 : pickupCol ∈ env.csv.header) (h2 : dropoffCol ∈ env.csv.header)
    (hlen : ∀ r ∈ env.csv.rows, r.length = env.csv.header.length)
    (hne : env.csv.rows ≠ []) :
    (main env table0 file0).table.map (fun t => t.rows.length) =
      some env.csv.rows.length ∧
    (main env table0 file0).appended = chunkLens env.csv.rows.length ∧
    (main env table0 file0).appended.length =
      (env.csv.rows.length + (chunkSize - 1)) / chunkSize ∧
    (main env table0 file0).appended.sum = env.csv.rows.length := by
  obtain ⟨ds, hds, hproc⟩ := processCSV_ok env table0 hw hp h1 h2
    (fun r hr => (hlen r hr).ge) hne
  rw [main_proc env table0 file0 hdl hconn, hproc]
  have hmap : ds.map List.length = chunkLens env.csv.rows.length := by
    rw [forall2_conv_map_length hds, chunkRows_map_length]
  refine ⟨?_, hmap, ?_, ?_⟩
  · simp only [Option.map_some']
    rw [List.length_flatten, hmap, chunkLens_sum]
  · simp only
    rw [hmap, chunkLens_length]
  · simp only
    rw [hmap, chunkLens_sum]

/-- Witness for C1 at the spec scenario: 250,000 rows are loaded in three
append calls of 100,000, 100,000 and 50,000 rows, and the table ends with
250,000 rows. -/
theorem claim1_inst :
    (env250.download = .ok ∧ env250.connectOk = true ∧
      (∀ k, env250.writeOk k = true) ∧ (∀ s, (env250.p s).isSome) ∧
      pickupCol ∈ env250.csv.header ∧ dropoffCol ∈ env250.csv.header ∧
      (∀ r ∈ env250.csv.rows, r.length = env250.csv.header.length) ∧
      env250.csv.rows ≠ []) ∧
    (main env250 none none).table.map (fun t => t.rows.length) =
      some 250000 ∧
    (main env250 none none).appended = [100000, 100000, 50000] ∧
    (main env250 none none).appended.length = 3 := by
  have hN : env250.csv.rows.length = 250000 := by
    show (List.replicate 250000 rowG).length = 250000
    exact List.length_replicate 250000 rowG
  have hrows : ∀ r ∈ env250.csv.rows, r.length = env250.csv.header.length := by
    intro r hr
    have hr2 : r ∈ List.replicate 250000 rowG := hr
    rw [List.eq_of_mem_replicate hr2]
    rfl
  have hne : env250.csv.rows ≠ [] := by
    intro hcon
    have h2 : env250.csv.rows.length = 0 := by rw [hcon]; rfl
    rw [hN] at h2
    exact absurd h2 (by decide)
  have h := claim1 env250 none none rfl rfl (fun _ => rfl) (fun _ => rfl)
    (by decide) (by decide) hrows hne
  refine ⟨⟨rfl, rfl, fun _ => rfl, fun _ => rfl, by decide, by decide,
    hrows, hne⟩, ?_, ?_, ?_⟩
  · rw [h.1, hN]
  · rw [h.2.1, hN]
    decide
  · rw [h.2.1, hN]
    decide

/-- Claim C9: the batch-append loop terminates for every finite input (the
embedding is structurally recursive on the chunk list), and exhaustion of
the chunk iterator is normal termination: a failure-free run ends with the
`StopIteration` branch logging the completion message, no error logged,
and one append per chunk of the input. -/
theorem claim9 (env : Env) (table0 : Option Table) (file0 : Option Frame)
    (hdl : env.download = .ok) (hconn : env.connectOk = true)
    (hw : ∀ k, env.writeOk k = true) (hp : ∀ s, (env.p s).isSome)
    (h1 : pickupCol ∈ env.csv.header) (h2 : dropoffCol ∈ env.csv.header)
    (hlen : ∀ r ∈ env.csv.rows, r.length = env.csv.header.length)
    (hne : env.csv.rows ≠ []) :
    (main env table0 file0).finishedLogged = true ∧
    (main env table0 file0).errors = [] ∧
    (main env table0 file0).appended.length =
      (chunkRows env.csv.rows).length := by
  obtain ⟨ds, hds, hproc⟩ := processCSV_ok env table0 hw hp h1 h2
    (fun r hr => (hlen r hr).ge) hne
  rw [main_proc env table0 file0 hdl hconn, hproc]
  refine ⟨rfl, rfl, ?_⟩
  simp only [List.length_map]
  exact (List.Forall₂.length_eq hds).symm

/-- Witness for C9: the two-row run ends by iterator exhaustion with no
error and its single chunk appended. -/
theorem claim9_inst :
    (envOk.download = .ok ∧ envOk.connectOk = true ∧
      (∀ k, envOk.writeOk k = true) ∧ (∀ s, (envOk.p s).isSome) ∧
      pickupCol ∈ envOk.csv.header ∧ dropoffCol ∈ envOk.csv.header ∧
      (∀ r ∈ envOk.csv.rows, r.length = envOk.csv.header.length) ∧
      envOk.csv.rows ≠ []) ∧
    (main envOk none none).finishedLogged = true ∧
    (main envOk none none).errors = [] := by
  have h := claim9 envOk none none rfl rfl (fun _ => rfl) (fun _ => rfl)
    (by decide) (by decide) (by decide) (by decide)
  exact ⟨⟨rfl, rfl, fun _ => rfl, fun _ => rfl, by decide, by decide,
    by decide, by decide⟩, h.1, h.2.1⟩

/-- Claim C3: whenever the run reaches the table-creation step (download
and connection succeed, the CSV is nonempty, the first chunk converts, and
the `head(0)`/replace call succeeds), the final table state is completely
independent of whatever table previously existed under that name — a rerun
replaces, never merges — the created table's columns are the first batch's
columns, and if the very next call (the first append) fails the table is
left with the zero rows it was created with. -/
theorem claim3 (env : Env) (table0 : Option Table) (file0 : Option Frame)
    (hdl : env.download = .ok) (hconn : env.connectOk = true)
    (hw0 : env.writeOk 0 = true) (hne : env.csv.rows ≠ [])
    (hconv : (convertChunk env.p env.csv.header
      (env.csv.rows.take chunkSize)).isSome) :
    (main env table0 file0).table = (main env none file0).table ∧
    ∃ tbl, (main env table0 file0).table = some tbl ∧
      tbl.cols = env.csv.header ∧
      (env.writeOk 1 = false → tbl.rows = []) := by
  have hchunks := chunkRows_cons hne
  obtain ⟨c1, hc1⟩ := Option.isSome_iff_exists.mp hconv
  rw [main_proc env table0 file0 hdl hconn, main_proc env none file0 hdl hconn]
  cases hw1 : env.writeOk 1 with
  | false =>
    rw [processCSV_w1Fail env table0 hchunks hc1 hw0 hw1,
      processCSV_w1Fail env none hchunks hc1 hw0 hw1]
    exact ⟨rfl, { cols := env.csv.header, rows := [] }, rfl, rfl,
      fun _ => rfl⟩
  | true =>
    rw [processCSV_go env table0 hchunks hc1 hw0 hw1,
      processCSV_go env none hchunks hc1 hw0 hw1]
    obtain ⟨cs1, cs2, ds, _, _, hrun⟩ :=
      processLoop_spec env env.csv.header
        (chunkRows (env.csv.rows.drop chunkSize))
        { cols := env.csv.header, rows := c1 } [c1.length] 2
    refine ⟨rfl, _, rfl, ?_, ?_⟩
    · rw [hrun]
    · intro hcon
      exact absurd hcon (by decide)

/-- Witness for C3: with a pre-existing table holding data, a rerun yields
exactly the state a run against no table yields, with the CSV's columns. -/
theorem claim3_inst :
    (envOk.download = .ok ∧ envOk.connectOk = true ∧
      envOk.writeOk 0 = true ∧ envOk.csv.rows ≠ [] ∧
      (convertChunk envOk.p envOk.csv.header
        (envOk.csv.rows.take chunkSize)).isSome) ∧
    (main envOk (some preTbl) none).table = (main envOk none none).table ∧
    ∃ tbl, (main envOk (some preTbl) none).table = some tbl ∧
      tbl.cols = envOk.csv.header := by
  have h := claim3 envOk (some preTbl) none rfl rfl rfl (by decide) (by decide)
  obtain ⟨heq, tbl, htbl, hcols, _⟩ := h
  exact ⟨⟨rfl, rfl, rfl, by decide, by decide⟩, heq, tbl, htbl, hcols⟩


/-- Claim C7: after a failure-free run the table's columns are exactly the
first batch's columns (the schema fixed at creation never changes — every
later write only appends converted chunks in order), and every row holds a
structured date-time value in both timestamp columns. -/
theorem claim7 (env : Env) (table0 : Option Table) (file0 : Option Frame)
    (hdl : env.download = .ok) (hconn : env.connectOk = true)
    (hw : ∀ k, env.writeOk k = true) (hp : ∀ s, (env.p s).isSome)
    (h1 : pickupCol ∈ env.csv.header) (h2 : dropoffCol ∈ env.csv.header)
    (hlen : ∀ r ∈ env.csv.rows, r.length = env.csv.header.length)
    (hne : env.csv.rows ≠ []) :
    ∃ tbl, (main env table0 file0).table = some tbl ∧
      tbl.cols = env.csv.header ∧
      (∃ ds, List.Forall₂
          (fun c d => convertChunk env.p env.csv.header c = some d)
          (chunkRows env.csv.rows) ds ∧ tbl.rows = ds.flatten) ∧
      ∀ i, colIdx pickupCol env.csv.header = some i →
        ∀ j, colIdx dropoffCol env.csv.header = some j →
          ∀ r ∈ tbl.rows,
            (∃ n, r[i]? = some (.dt n)) ∧ ∃ n, r[j]? = some (.dt n) := by
  obtain ⟨ds, hds, hproc⟩ := processCSV_ok env table0 hw hp h1 h2
    (fun r hr => (hlen r hr).ge) hne
  rw [main_proc env table0 file0 hdl hconn, hproc]
  refine ⟨_, rfl, rfl, ⟨ds, hds, rfl⟩, ?_⟩
  intro i hi j hj r hr
  obtain ⟨d, hd, hrd⟩ := List.mem_flatten.mp hr
  obtain ⟨c, _, hcd⟩ := forall2_mem_right hds d hd
  exact convertChunk_dt hcd hi hj r hrd

/-- Witness for C7: the two-row run ends with the CSV's columns and
date-time values in both timestamp positions of every row. -/
theorem claim7_inst :
    (envOk.download = .ok ∧ envOk.connectOk = true ∧
      (∀ k, envOk.writeOk k = true) ∧ (∀ s, (envOk.p s).isSome) ∧
      pickupCol ∈ envOk.csv.header ∧ dropoffCol ∈ envOk.csv.header ∧
      (∀ r ∈ envOk.csv.rows, r.length = envOk.csv.header.length) ∧
      envOk.csv.rows ≠ []) ∧
    ∃ tbl, (main envOk none none).table = some tbl ∧
      tbl.cols = envOk.csv.header ∧
      ∀ i, colIdx pickupCol envOk.csv.header = some i →
        ∀ j, colIdx dropoffCol envOk.csv.header = some j →
          ∀ r ∈ tbl.rows,
            (∃ n, r[i]? = some (.dt n)) ∧ ∃ n, r[j]? = some (.dt n) := by
  have h := claim7 envOk none none rfl rfl (fun _ => rfl) (fun _ => rfl)
    (by decide) (by decide) (by decide) (by decide)
  obtain ⟨tbl, htbl, hcols, _, hdt⟩ := h
  exact ⟨⟨rfl, rfl, fun _ => rfl, fun _ => rfl, by decide, by decide,
    by decide, by decide⟩, tbl, htbl, hcols, hdt⟩

/-- Claim C8: a successful batch conversion changes exactly the cells in
the pickup and dropoff columns — each is replaced by the `pd.to_datetime`
image of the original cell — and every cell of every record in any other
column is written through unchanged; the batch keeps its row count. -/
theorem claim8 (p : String → Option Nat) (h : List String)
    (rows rows2 : List Row) (hc : convertChunk p h rows = some rows2)
    (i j : Nat) (hi : colIdx pickupCol h = some i)
    (hj : colIdx dropoffCol h = some j) :
    rows2.length = rows.length ∧
    ∀ k : Nat, ∀ r r2 : Row, rows[k]? = some r → rows2[k]? = some r2 →
      (∀ m : Nat, m ≠ i → m ≠ j → r2[m]? = r[m]?) ∧
      r2[i]? = (r[i]?).bind (toDatetimeVal p) ∧
      r2[j]? = (r[j]?).bind (toDatetimeVal p) := by
  have hij : i ≠ j := colIdx_ne hi hj pickup_ne_dropoff
  obtain ⟨mid, hmid, hout⟩ := convertChunk_eq_some hc
  obtain ⟨i2, hi2, hmap1⟩ := toDatetimeCol_eq_some hmid
  obtain ⟨j2, hj2, hmap2⟩ := toDatetimeCol_eq_some hout
  rw [hi] at hi2
  rw [hj] at hj2
  cases hi2
  cases hj2
  refine ⟨convertChunk_length hc, ?_⟩
  intro k r r2 hr hr2
  have hmidk : mid[k]? = toDatetimeRow p i r := by
    rw [mapOpt_getElem? hmap1 k, hr]
    rfl
  have hr2k : (toDatetimeRow p i r).bind (toDatetimeRow p j) = some r2 := by
    rw [← hmidk, ← mapOpt_getElem? hmap2 k]
    exact hr2
  obtain ⟨m, hconv1, hconv2⟩ := Option.bind_eq_some.mp hr2k
  refine ⟨?_, ?_, ?_⟩
  · intro m2 hm2i hm2j
    rw [toDatetimeRow_getElem_ne hconv2 (Ne.symm hm2j),
      toDatetimeRow_getElem_ne hconv1 (Ne.symm hm2i)]
  · rw [toDatetimeRow_getElem_ne hconv2 (Ne.symm hij),
      toDatetimeRow_getElem_self hconv1]
  · rw [toDatetimeRow_getElem_self hconv2,
      toDatetimeRow_getElem_ne hconv1 hij]

/-- Witness for C8 on a concrete three-column batch: the fare column is
untouched, both timestamp columns become date-times. -/
theorem claim8_inst :
    (convertChunk (fun _ => some 5) csvS.header csvS.rows =
        some [[.dt 5, .dt 5, .text "10"], [.dt 5, .dt 5, .text "20"]] ∧
      colIdx pickupCol csvS.header = some 0 ∧
      colIdx dropoffCol csvS.header = some 1) ∧
    ([[Value.dt 5, Value.dt 5, Value.text "10"],
        [Value.dt 5, Value.dt 5, Value.text "20"]].length =
      csvS.rows.length ∧
    ∀ k : Nat, ∀ r r2 : Row, csvS.rows[k]? = some r →
      [[Value.dt 5, Value.dt 5, Value.text "10"],
        [Value.dt 5, Value.dt 5, Value.text "20"]][k]? = some r2 →
      (∀ m : Nat, m ≠ 0 → m ≠ 1 → r2[m]? = r[m]?) ∧
      r2[0]? = (r[0]?).bind (toDatetimeVal fun _ => some 5) ∧
      r2[1]? = (r[1]?).bind (toDatetimeVal fun _ => some 5)) :=
  ⟨⟨by decide, by decide, by decide⟩,
    claim8 (fun _ => some 5) csvS.header csvS.rows
      [[Value.dt 5, Value.dt 5, Value.text "10"],
        [Value.dt 5, Value.dt 5, Value.text "20"]]
      (by decide) 0 1 (by decide) (by decide)⟩

/-- Claim C4: when the run reaches the processing stage and a batch fails
(to parse or to write), the run logs the processing error and stops:
the appended batch sizes are a proper prefix of the planned chunk sizes
(the remaining batches are abandoned), every batch appended before the
failure is still in the table with no rollback (the table's row count is
exactly the sum of the appended sizes), and the staging file is deleted
by the `finally` regardless. -/
theorem claim4 (env : Env) (table0 : Option Table) (file0 : Option Frame)
    (hdl : env.download = .ok) (hconn : env.connectOk = true)
    (hne : env.csv.rows ≠ [])
    (hfail : (processCSV env env.csv table0).2.2 = false) :
    (main env table0 file0).file = none ∧
    (main env table0 file0).errors = ["Error processing data"] ∧
    (main env table0 file0).finishedLogged = false ∧
    (∃ rest2, (main env table0 file0).appended ++ rest2 =
        chunkLens env.csv.rows.length ∧
      (main env table0 file0).appended.length <
        (chunkLens env.csv.rows.length).length) ∧
    ((main env table0 file0).appended ≠ [] →
      ∃ tbl, (main env table0 file0).table = some tbl ∧
        tbl.cols = env.csv.header ∧
        tbl.rows.length = (main env table0 file0).appended.sum) := by
  have hN0 : env.csv.rows.length ≠ 0 := by
    intro hcon
    exact hne (List.eq_nil_of_length_eq_zero hcon)
  have hPlanPos : 0 < (chunkLens env.csv.rows.length).length :=
    List.length_pos.mpr (chunkLens_ne_nil hN0)
  have hchunks := chunkRows_cons hne
  rw [main_proc env table0 file0 hdl hconn]
  cases hc1 : convertChunk env.p env.csv.header (env.csv.rows.take chunkSize) with
  | none =>
    rw [processCSV_convFail env table0 hchunks hc1] at hfail ⊢
    refine ⟨rfl, rfl, rfl,
      ⟨chunkLens env.csv.rows.length, rfl, hPlanPos⟩, ?_⟩
    intro hcon
    exact absurd rfl hcon
  | some c1 =>
    cases hw0 : env.writeOk 0 with
    | false =>
      rw [processCSV_w0Fail env table0 hchunks hc1 hw0] at hfail ⊢
      refine ⟨rfl, rfl, rfl,
        ⟨chunkLens env.csv.rows.length, rfl, hPlanPos⟩, ?_⟩
      intro hcon
      exact absurd rfl hcon
    | true =>
      cases hw1 : env.writeOk 1 with
      | false =>
        rw [processCSV_w1Fail env table0 hchunks hc1 hw0 hw1] at hfail ⊢
        refine ⟨rfl, rfl, rfl,
          ⟨chunkLens env.csv.rows.length, rfl, hPlanPos⟩, ?_⟩
        intro hcon
        exact absurd rfl hcon
      | true =>
        rw [processCSV_go env table0 hchunks hc1 hw0 hw1] at hfail ⊢
        obtain ⟨cs1, cs2, ds, hsplit, hall, hrun⟩ :=
          processLoop_spec env env.csv.header
            (chunkRows (env.csv.rows.drop chunkSize))
            { cols := env.csv.header, rows := c1 } [c1.length] 2
        rw [hrun] at hfail ⊢
        cases cs2 with
        | nil => simp [List.isEmpty] at hfail
        | cons x xs =>
          have hPlan := (chunkRows_map_length env.csv.rows).symm
          rw [hchunks, List.map_cons, hsplit, List.map_append] at hPlan
          have hc1len : c1.length = (env.csv.rows.take chunkSize).length :=
            convertChunk_length hc1
          have hdslen : ds.map List.length = cs1.map List.length :=
            forall2_conv_map_length hall
          refine ⟨rfl, ?_, ?_, ⟨(x :: xs).map List.length, ?_, ?_⟩, ?_⟩
          · simp [List.isEmpty]
          · simp [List.isEmpty]
          · show [c1.length] ++ ds.map List.length ++ (x :: xs).map List.length = _
            rw [hPlan, hdslen, hc1len]
            simp [List.append_assoc]
          · show ([c1.length] ++ ds.map List.length).length < _
            rw [hdslen, hPlan]
            simp only [List.length_cons, List.length_append, List.length_map,
              List.length_nil]
            omega
          · intro _
            refine ⟨_, rfl, rfl, ?_⟩
            show (c1 ++ ds.flatten).length = _
            simp [List.length_flatten, List.sum_append]


/-- A record whose timestamp text does not parse. -/
def rowB : Row := [.text "bad", .text "bad"]

/-- A 100,001-row CSV: one full chunk of good records followed by a
second, one-row chunk whose timestamps are malformed; every other
operation succeeds. -/
def env4 : Env :=
  { download := .ok,
    csv := { header := [pickupCol, dropoffCol],
             rows := List.replicate 100000 rowG ++ [rowB] },
    midContent := { header := [], rows := [] },
    connectOk := true,
    p := fun s => if s = "bad" then none else some 0,
    writeOk := fun _ => true }

/-- Witness for C4: the second chunk fails to parse, the run errors, and
the first chunk's 100,000 rows stay committed while the file is gone. -/
theorem claim4_inst :
    (env4.download = .ok ∧ env4.connectOk = true ∧ env4.csv.rows ≠ [] ∧
      (processCSV env4 env4.csv none).2.2 = false) ∧
    (main env4 none none).file = none ∧
    (main env4 none none).errors = ["Error processing data"] ∧
    (∃ rest2, (main env4 none none).appended ++ rest2 =
        chunkLens env4.csv.rows.length ∧
      (main env4 none none).appended.length <
        (chunkLens env4.csv.rows.length).length) ∧
    ((main env4 none none).appended ≠ [] →
      ∃ tbl, (main env4 none none).table = some tbl ∧
        tbl.cols = env4.csv.header ∧
        tbl.rows.length = (main env4 none none).appended.sum) := by
  have hlenrep : (List.replicate 100000 rowG).length = chunkSize := by
    rw [List.length_replicate]
    rfl
  have hlen4 : env4.csv.rows.length = 100001 := by
    show (List.replicate 100000 rowG ++ [rowB]).length = 100001
    rw [List.length_append, List.length_replicate]
    rfl
  have hne : env4.csv.rows ≠ [] := by
    intro hcon
    have h2 : env4.csv.rows.length = 0 := by rw [hcon]; rfl
    rw [hlen4] at h2
    exact absurd h2 (by decide)
  have hdrop : env4.csv.rows.drop chunkSize = [rowB] := by
    show (List.replicate 100000 rowG ++ [rowB]).drop chunkSize = [rowB]
    exact List.drop_left' hlenrep
  have hchunks2 : chunkRows (env4.csv.rows.drop chunkSize) = [[rowB]] := by
    rw [hdrop, chunkRows_cons (by simp),
      List.take_of_length_le (by decide), List.drop_of_length_le (by decide)]
    rfl
  have hmem : [rowB] ∈ chunkRows env4.csv.rows := by
    rw [chunkRows_cons hne, hchunks2]
    exact List.mem_cons_of_mem _ (List.mem_cons_self _ _)
  have hnone : convertChunk env4.p env4.csv.header [rowB] = none := by decide
  have hfail : (processCSV env4 env4.csv none).2.2 = false := by
    cases hok : (processCSV env4 env4.csv none).2.2 with
    | false => rfl
    | true =>
      have hsome := processCSV_ok_all_conv env4 none hok [rowB] hmem
      rw [hnone] at hsome
      exact absurd hsome (by decide)
  have h := claim4 env4 none none rfl rfl hne hfail
  exact ⟨⟨rfl, rfl, hne, hfail⟩, h.1, h.2.1, h.2.2.2.1, h.2.2.2.2⟩

end IngestData
